import Mathlib

/-!
Verification of the embedding-generation and semantic-excerpt
materialization pipeline:

* `crates/semantic_index/src/embedding.rs` — vector normalization,
  dimension-tagged `Embedding` construction, and the Ollama/OpenAI
  embedding providers;
* `crates/assistant2/src/tools.rs` — the `ProjectIndexTool` that turns
  search hits into byte-range-adjusted text excerpts and formats them.

Rust strings are modelled as lists of bytes (`List Nat`, each < 256),
`f32` as `Float`, machine-size `usize` arithmetic as `Nat` (all the
relevant quantities are list lengths, so no overflow arises), and
fallible operations as `Except`/`Option`.
-/

namespace Zed

/-- A UTF-8 continuation byte: `0b10xxxxxx`, i.e. in `[0x80, 0xC0)`.
Rust's `u8::is_utf8_char_boundary` is the negation of this test. -/
def isCont (b : Nat) : Bool :=
  decide (128 ≤ b) && decide (b < 192)

/-- Model of Rust's `str::is_char_boundary(i)`: true at index 0; at an
in-bounds index, true iff the byte there is not a continuation byte;
past the end, true only exactly at the length. -/
def isCharBoundary (s : List Nat) (i : Nat) : Bool :=
  if i = 0 then true
  else
    match s[i]? with
    | some b => !(isCont b)
    | none => decide (i = s.length)

/-- Number of bytes of the UTF-8 character introduced by lead byte `b`
(0 when `b` cannot be a lead byte). -/
def charLen (b : Nat) : Nat :=
  if b < 128 then 1
  else if b < 192 then 0
  else if b < 224 then 2
  else if b < 240 then 3
  else if b < 248 then 4
  else 0

/-- Well-formed UTF-8 byte sequences, as produced by a Rust `String`:
a sequence of characters, each a lead byte followed by exactly the
continuation bytes its length prescribes. -/
inductive ValidUtf8 : List Nat → Prop where
  | nil : ValidUtf8 []
  | cons (b : Nat) (cont rest : List Nat)
      (hb : 1 ≤ charLen b)
      (hlen : cont.length = charLen b - 1)
      (hcont : ∀ c ∈ cont, isCont c = true)
      (hrest : ValidUtf8 rest) :
      ValidUtf8 (b :: (cont ++ rest))

theorem isCharBoundary_zero (s : List Nat) : isCharBoundary s 0 = true := by
  simp [isCharBoundary]

theorem isCharBoundary_length (s : List Nat) :
    isCharBoundary s s.length = true := by
  unfold isCharBoundary
  split
  · rfl
  · have h : s[s.length]? = none := by
      simp
    rw [h]
    simp

theorem isCharBoundary_le_length {s : List Nat} {i : Nat}
    (h : isCharBoundary s i = true) : i ≤ s.length := by
  unfold isCharBoundary at h
  split at h
  · omega
  · rename_i hne
    rcases hg : s[i]? with _ | b
    · rw [hg] at h
      simp at h
      omega
    · obtain ⟨hlt, -⟩ := List.getElem?_eq_some_iff.mp hg
      omega

theorem charLen_pos_not_cont {b : Nat} (h : 1 ≤ charLen b) :
    isCont b = false := by
  unfold charLen at h
  unfold isCont
  split at h
  · simp
    omega
  · split at h
    · omega
    · simp
      omega

theorem isCharBoundary_interior (lead : Nat) (cont rest : List Nat)
    (hcont : ∀ c ∈ cont, isCont c = true) (i : Nat)
    (h0 : 0 < i) (hi : i < cont.length + 1) :
    isCharBoundary (lead :: (cont ++ rest)) i = false := by
  obtain ⟨j, rfl⟩ : ∃ j, i = j + 1 := ⟨i - 1, by omega⟩
  have hj : j < cont.length := by omega
  have hget : (lead :: (cont ++ rest))[j + 1]? = some cont[j] := by
    rw [List.getElem?_cons_succ, List.getElem?_append_left hj,
      List.getElem?_eq_getElem hj]
  unfold isCharBoundary
  rw [if_neg (by omega), hget]
  simp [hcont cont[j] (List.getElem_mem hj)]

theorem isCharBoundary_shift (lead : Nat) (cont rest : List Nat)
    (hrest : ValidUtf8 rest) (i : Nat) :
    isCharBoundary (lead :: (cont ++ rest)) (cont.length + 1 + i) =
      isCharBoundary rest i := by
  cases i with
  | zero =>
    rw [isCharBoundary_zero]
    have hget : (lead :: (cont ++ rest))[cont.length + 1]? = rest[0]? := by
      rw [List.getElem?_cons_succ, List.getElem?_append_right (Nat.le_refl _),
        Nat.sub_self]
    unfold isCharBoundary
    rw [if_neg (by omega)]
    simp only [Nat.add_zero]
    rw [hget]
    cases hrest with
    | nil => simp
    | cons r cont' rest' hb hlen hcont hrest' => simp [charLen_pos_not_cont hb]
  | succ j =>
    have h1 : cont.length + 1 + (j + 1) ≠ 0 := by omega
    have h2 : j + 1 ≠ 0 := by omega
    have hget : (lead :: (cont ++ rest))[cont.length + 1 + (j + 1)]? =
        rest[j + 1]? := by
      rw [show cont.length + 1 + (j + 1) = (cont.length + (j + 1)) + 1 by omega]
      rw [List.getElem?_cons_succ, List.getElem?_append_right (by omega)]
      congr 1
      omega
    unfold isCharBoundary
    rw [if_neg h1, if_neg h2, hget]
    cases hg : rest[j + 1]? with
    | some c => rfl
    | none =>
      simp only [List.length_cons, List.length_append]
      rw [decide_eq_decide]
      omega

/-- Slicing a well-formed UTF-8 byte string between two character
boundaries yields a well-formed UTF-8 byte string. -/
theorem ValidUtf8.slice {text : List Nat} (hv : ValidUtf8 text) :
    ∀ a b : Nat, isCharBoundary text a = true → isCharBoundary text b = true →
      a ≤ b → ValidUtf8 ((text.drop a).take (b - a)) := by
  induction hv with
  | nil =>
    intro a b _ _ _
    simp only [List.drop_nil, List.take_nil]
    exact ValidUtf8.nil
  | cons lead cont rest hb hlen hcont hrest ih =>
    intro a b ha hbnd hab
    rcases Nat.eq_zero_or_pos a with rfl | hapos
    · rcases Nat.eq_zero_or_pos b with rfl | hbpos
      · simp only [Nat.sub_zero, List.drop_zero, List.take_zero]
        exact ValidUtf8.nil
      · have hbge : cont.length + 1 ≤ b := by
          by_contra hlt
          push_neg at hlt
          rw [isCharBoundary_interior lead cont rest hcont b hbpos hlt] at hbnd
          simp at hbnd
        obtain ⟨b', rfl⟩ : ∃ b', b = cont.length + 1 + b' :=
          ⟨b - (cont.length + 1), by omega⟩
        have hbnd' : isCharBoundary rest b' = true := by
          rw [← isCharBoundary_shift lead cont rest hrest b']
          exact hbnd
        have ihb := ih 0 b' (isCharBoundary_zero rest) hbnd' (Nat.zero_le _)
        simp only [List.drop_zero, Nat.sub_zero] at ihb ⊢
        have htake : (lead :: (cont ++ rest)).take (cont.length + 1 + b') =
            lead :: (cont ++ rest.take b') := by
          rw [show cont.length + 1 + b' = (cont.length + b') + 1 by omega]
          rw [List.take_succ_cons, List.take_append]
        rw [htake]
        exact ValidUtf8.cons lead cont (rest.take b') hb hlen hcont ihb
    · have hage : cont.length + 1 ≤ a := by
        by_contra hlt
        push_neg at hlt
        rw [isCharBoundary_interior lead cont rest hcont a hapos hlt] at ha
        simp at ha
      obtain ⟨a', rfl⟩ : ∃ a', a = cont.length + 1 + a' :=
        ⟨a - (cont.length + 1), by omega⟩
      obtain ⟨b', rfl⟩ : ∃ b', b = cont.length + 1 + b' :=
        ⟨b - (cont.length + 1), by omega⟩
      have ha' : isCharBoundary rest a' = true := by
        rw [← isCharBoundary_shift lead cont rest hrest a']
        exact ha
      have hb' : isCharBoundary rest b' = true := by
        rw [← isCharBoundary_shift lead cont rest hrest b']
        exact hbnd
      have hdrop : (lead :: (cont ++ rest)).drop (cont.length + 1 + a') =
          rest.drop a' := by
        rw [show cont.length + 1 + a' = (cont.length + a') + 1 by omega]
        rw [List.drop_succ_cons, List.drop_append]
      have hsub : cont.length + 1 + b' - (cont.length + 1 + a') = b' - a' := by
        omega
      rw [hdrop, hsub]
      exact ih a' b' ha' hb' (by omega)

/-- Model of the source loop `while !text.is_char_boundary(start) \x7b start += 1 \x7d`
in `ProjectIndexTool::execute`: the least character boundary at or after
`s`. Every boundary is at most `text.length`, so searching the indices
`s, ..., text.length` is exhaustive; a `none` result (which happens
exactly when `s > text.length`) models the source loop never
terminating, since no boundary at or after `s` exists then. -/
def firstBoundaryFrom (text : List Nat) (s : Nat) : Option Nat :=
  (List.range' s (text.length + 1 - s)).find? (fun i => isCharBoundary text i)

/-- Model of the source loop `while !text.is_char_boundary(end) \x7b end -= 1 \x7d`:
walk downward until a boundary is reached; this always terminates
because index 0 is a boundary. -/
def lastBoundaryDown (text : List Nat) : Nat → Nat
  | 0 => 0
  | e + 1 => if isCharBoundary text (e + 1) then e + 1 else lastBoundaryDown text e

/-- Outcome of the per-hit async block in `ProjectIndexTool::execute`:
`ok` is `anyhow::Ok(excerpt)`; `err` is a recoverable error result
(worktree path resolution or `fs.load` failure), which the caller drops
via `filter_map(log_err)`; `stuck` records that the start-walk loop
never terminates; `panicked` records that the slice `text[start..end]`
panics because the walked `start` exceeds the walked `end`. -/
inductive HitStep (α : Type) where
  | ok (a : α)
  | err
  | stuck
  | panicked
  deriving DecidableEq

/-- The range-adjustment and slicing steps of the per-hit block
(tools.rs): `end` is clamped to the text length, `start` is walked
forward and `end` backward to character boundaries, and the byte slice
`text[start..end]` is taken. -/
def adjustAndSlice (text : List Nat) (rangeStart rangeEnd : Nat) :
    HitStep (List Nat) :=
  let e1 := min rangeEnd text.length
  match firstBoundaryFrom text rangeStart with
  | none => .stuck
  | some s =>
      let e := lastBoundaryDown text e1
      if s ≤ e then .ok ((text.drop s).take (e - s)) else .panicked

/-- The fields of `semantic_index`'s search result that
`ProjectIndexTool::execute` uses: the worktree (represented by its
absolute path), the project-relative path, the byte range and the
relevance score. -/
structure SearchResult where
  worktreeAbsPath : String
  path : String
  rangeStart : Nat
  rangeEnd : Nat
  score : Float

/-- Output record of the tool (`CodebaseExcerpt` in tools.rs); `text`
holds the bytes of the sliced string. -/
structure CodebaseExcerpt where
  path : String
  text : List Nat
  score : Float

/-- Model of `Path::join` as used on the worktree's absolute path and a
hit's relative path. -/
def joinPath (base rel : String) : String := base ++ "/" ++ rel

/-- One hit of `ProjectIndexTool::execute`: load the file at the
worktree's absolute path joined with the hit's relative path, adjust
and slice the byte range, and emit a `CodebaseExcerpt` whose `path` is
the display of the relative path and whose `score` is the hit's score.
`fs` models `Fs::load` returning the file's bytes; its error case also
covers the fallible worktree `abs_path` resolution. -/
def materializeHit (fs : String → Except Unit (List Nat)) (r : SearchResult) :
    HitStep CodebaseExcerpt :=
  match fs (joinPath r.worktreeAbsPath r.path) with
  | .error _ => .err
  | .ok text =>
      match adjustAndSlice text r.rangeStart r.rangeEnd with
      | .ok bytes => .ok ⟨r.path, bytes, r.score⟩
      | .err => .err
      | .stuck => .stuck
      | .panicked => .panicked

theorem firstBoundaryFrom_eq_none (text : List Nat) (s : Nat) :
    firstBoundaryFrom text s = none ↔ text.length < s := by
  unfold firstBoundaryFrom
  constructor
  · intro h
    by_contra hle
    push_neg at hle
    have hmem : text.length ∈ List.range' s (text.length + 1 - s) := by
      rw [List.mem_range'_1]
      omega
    have := List.find?_eq_none.mp h _ hmem
    rw [isCharBoundary_length] at this
    simp at this
  · intro h
    have hz : text.length + 1 - s = 0 := by omega
    rw [hz]
    rfl

theorem firstBoundaryFrom_boundary {text : List Nat} {s j : Nat}
    (h : firstBoundaryFrom text s = some j) : isCharBoundary text j = true :=
  List.find?_some h

theorem firstBoundaryFrom_isSome (text : List Nat) (s : Nat)
    (h : s ≤ text.length) : ∃ j, firstBoundaryFrom text s = some j := by
  rcases hj : firstBoundaryFrom text s with _ | j
  · rw [firstBoundaryFrom_eq_none] at hj
    omega
  · exact ⟨j, rfl⟩

theorem lastBoundaryDown_boundary (text : List Nat) (e : Nat) :
    isCharBoundary text (lastBoundaryDown text e) = true := by
  induction e with
  | zero => exact isCharBoundary_zero text
  | succ n ih =>
    unfold lastBoundaryDown
    split
    · rename_i h
      exact h
    · exact ih

theorem lastBoundaryDown_le (text : List Nat) (e : Nat) :
    lastBoundaryDown text e ≤ e := by
  induction e with
  | zero => exact Nat.le_refl 0
  | succ n ih =>
    unfold lastBoundaryDown
    split
    · exact Nat.le_refl _
    · omega

theorem lastBoundaryDown_eq_of_boundary (text : List Nat) (e : Nat)
    (h : isCharBoundary text e = true) : lastBoundaryDown text e = e := by
  cases e with
  | zero => rfl
  | succ n =>
    unfold lastBoundaryDown
    rw [if_pos h]

/-- Extract the excerpt from a completed per-hit result; `none` for the
recoverable error, which `execute` drops via `filter_map(log_err)`. -/
def hitOk {α : Type} : HitStep α → Option α
  | .ok a => some a
  | _ => none

/-- Whether a per-hit result is fatal to the whole batch: a diverging
start-walk means `join_all` never completes, and a slicing panic
unwinds the task; neither is absorbed by `filter_map(log_err)`. -/
def hitFatal {α : Type} : HitStep α → Bool
  | .stuck => true
  | .panicked => true
  | _ => false

/-- Collect a list of optional values, failing if any is missing. -/
def sequenceOption {α : Type} : List (Option α) → Option (List α)
  | [] => some []
  | none :: _ => none
  | some a :: rest =>
      match sequenceOption rest with
      | some l => some (a :: l)
      | none => none

/-- Model of `futures::future::join_all` run under the completion order
`sched` (the order in which the concurrent per-hit tasks finish): each
finishing task stores its result at its own input index, and the
results are then read off in input order. A schedule that misses a task
(possible only for a task that never finishes) yields no result list. -/
def joinAllSched {α : Type} (tasks : List α) (sched : List Nat) :
    Option (List α) :=
  sequenceOption (sched.foldl (fun acc i => acc.set i tasks[i]?)
    (List.replicate tasks.length none))

/-- The whole async body of `ProjectIndexTool::execute` after the index
query: run every hit, join, and keep the successful excerpts in input
order, dropping recoverable per-hit errors. If any per-hit task
diverges or panics, the tool produces no output list at all, modelled
by `none`. -/
def materialize (fs : String → Except Unit (List Nat))
    (results : List SearchResult) : Option (List CodebaseExcerpt) :=
  let outcomes := results.map (materializeHit fs)
  if outcomes.any hitFatal then none
  else some (outcomes.filterMap hitOk)

/-- `materialize` as executed under an explicit completion order of the
concurrent per-hit tasks. -/
def materializeSched (fs : String → Except Unit (List Nat))
    (results : List SearchResult) (sched : List Nat) :
    Option (List CodebaseExcerpt) :=
  match joinAllSched (results.map (materializeHit fs)) sched with
  | none => none
  | some outcomes =>
      if outcomes.any hitFatal then none
      else some (outcomes.filterMap hitOk)

theorem foldl_set_getElem? {α : Type} (tasks : List α) :
    ∀ (sched : List Nat) (acc : List (Option α)) (j : Nat),
      (sched.foldl (fun acc i => acc.set i tasks[i]?) acc)[j]? =
        if j ∈ sched ∧ j < acc.length then some tasks[j]? else acc[j]? := by
  intro sched
  induction sched with
  | nil =>
    intro acc j
    simp
  | cons i rest ih =>
    intro acc j
    simp only [List.foldl_cons]
    rw [ih, List.length_set]
    by_cases hjl : j < acc.length
    · by_cases hjr : j ∈ rest
      · simp [hjr, hjl, List.mem_cons]
      · by_cases hij : i = j
        · subst hij
          rw [if_neg (by tauto), List.getElem?_set_self hjl,
            if_pos ⟨List.mem_cons_self i rest, hjl⟩]
        · rw [if_neg (by tauto), List.getElem?_set_ne hij,
            if_neg (by rw [List.mem_cons]; tauto)]
    · have h1 : (acc.set i tasks[i]?)[j]? = none := by
        rw [List.getElem?_eq_none]
        rw [List.length_set]
        omega
      have h2 : acc[j]? = none := by
        rw [List.getElem?_eq_none]
        omega
      rw [if_neg (by tauto), if_neg (by tauto), h1, h2]

theorem sequenceOption_map_some {α : Type} (l : List α) :
    sequenceOption (l.map some) = some l := by
  induction l with
  | nil => rfl
  | cons a rest ih => simp [sequenceOption, ih]

/-- Under any completion order that finishes every task, `join_all`
returns all results in input order, regardless of the order in which
the tasks completed. -/
theorem joinAllSched_complete {α : Type} (tasks : List α) (sched : List Nat)
    (h : ∀ i, i < tasks.length → i ∈ sched) :
    joinAllSched tasks sched = some tasks := by
  unfold joinAllSched
  have hslots : sched.foldl (fun acc i => acc.set i tasks[i]?)
      (List.replicate tasks.length (none : Option α)) = tasks.map some := by
    apply List.ext_getElem?
    intro j
    rw [foldl_set_getElem?, List.length_replicate]
    by_cases hj : j < tasks.length
    · rw [if_pos ⟨h j hj, hj⟩, List.getElem?_map, List.getElem?_eq_getElem hj]
      simp
    · have h1 : (List.replicate tasks.length (none : Option α))[j]? = none := by
        rw [List.getElem?_eq_none]
        rw [List.length_replicate]
        omega
      have h2 : (tasks.map some)[j]? = none := by
        rw [List.getElem?_eq_none]
        rw [List.length_map]
        omega
      rw [if_neg (by tauto), h1, h2]
  rw [hslots, sequenceOption_map_some]

theorem materializeSched_eq (fs : String → Except Unit (List Nat))
    (results : List SearchResult) (sched : List Nat)
    (h : ∀ i, i < results.length → i ∈ sched) :
    materializeSched fs results sched = materialize fs results := by
  unfold materializeSched materialize
  rw [joinAllSched_complete _ _ (by simpa using h)]

/-- UTF-8 bytes of a Lean string, used for the fixed framing text of
`format_output`. -/
def strBytes (s : String) : List Nat := s.toUTF8.toList.map (fun b => b.toNat)

/-- The per-excerpt block of `format_output`: path/score line, then a
fenced body. The rendering of the `f32` score is modelled by `Float`'s
`toString`. -/
def excerptFrame (e : CodebaseExcerpt) : List Nat :=
  strBytes "Excerpt from " ++ strBytes e.path ++ strBytes ", score " ++
    strBytes (toString e.score) ++ strBytes ":\n" ++ strBytes "~~~\n" ++
    e.text ++ strBytes "~~~\n"

/-- Model of `LanguageModelTool::format_output` in tools.rs: starting
from the header line, the loop appends each excerpt's block by
successive `push_str` calls. -/
def format_output (excerpts : List CodebaseExcerpt) : List Nat :=
  excerpts.foldl
    (fun body e =>
      body ++ strBytes "Excerpt from " ++ strBytes e.path ++ strBytes ", score " ++
        strBytes (toString e.score) ++ strBytes ":\n" ++ strBytes "~~~\n" ++
        e.text ++ strBytes "~~~\n")
    (strBytes "Semantic search results for user query:\n")

theorem format_output_go (excerpts : List CodebaseExcerpt) :
    ∀ init : List Nat,
      excerpts.foldl
        (fun body e =>
          body ++ strBytes "Excerpt from " ++ strBytes e.path ++
            strBytes ", score " ++ strBytes (toString e.score) ++
            strBytes ":\n" ++ strBytes "~~~\n" ++ e.text ++ strBytes "~~~\n")
        init = init ++ (excerpts.map excerptFrame).flatten := by
  induction excerpts with
  | nil =>
    intro init
    simp
  | cons e rest ih =>
    intro init
    simp only [List.foldl_cons, List.map_cons, List.flatten_cons]
    rw [ih]
    simp [excerptFrame, List.append_assoc]

/-- Ollama's embedding via nomic-embed-text is of length 768. -/
def EMBEDDING_SIZE_TINY : Nat := 768

/-- Ollama's embedding via mxbai-embed-large is of length 1024. -/
def EMBEDDING_SIZE_XSMALL : Nat := 1024

/-- OpenAI's text small embeddings are of length 1536. -/
def EMBEDDING_SIZE_SMALL : Nat := 1536

/-- OpenAI's text large embeddings are of length 3072. -/
def EMBEDDING_SIZE_LARGE : Nat := 3072

/-- The `EmbeddingModel` enum of embedding.rs. -/
inductive EmbeddingModel where
  | OllamaNomicEmbedText
  | OllamaMxbaiEmbedLarge
  | OpenaiTextEmbedding3Small
  | OpenaiTextEmbedding3Large
  deriving DecidableEq

/-- The `Embedding` enum: each variant's payload is a fixed-size `f32`
array (`[f32; N]`), modelled as a list whose length is pinned by a
proof carried in the constructor. -/
inductive Embedding where
  | OllamaNomicEmbedText (v : List Float) (h : v.length = EMBEDDING_SIZE_TINY)
  | OllamaMxbaiEmbedLarge (v : List Float) (h : v.length = EMBEDDING_SIZE_XSMALL)
  | OpenaiTextEmbedding3Small (v : List Float) (h : v.length = EMBEDDING_SIZE_SMALL)
  | OpenaiTextEmbedding3Large (v : List Float) (h : v.length = EMBEDDING_SIZE_LARGE)

/-- The canonical dimension carried by each model tag (the constant
used in that tag's guard in `normalize_embedding`). -/
def canonical_dimension : EmbeddingModel → Nat
  | .OllamaNomicEmbedText => EMBEDDING_SIZE_TINY
  | .OllamaMxbaiEmbedLarge => EMBEDDING_SIZE_XSMALL
  | .OpenaiTextEmbedding3Small => EMBEDDING_SIZE_SMALL
  | .OpenaiTextEmbedding3Large => EMBEDDING_SIZE_LARGE

/-- The float vector stored in an `Embedding` value. -/
def Embedding.vec : Embedding → List Float
  | .OllamaNomicEmbedText v _ => v
  | .OllamaMxbaiEmbedLarge v _ => v
  | .OpenaiTextEmbedding3Small v _ => v
  | .OpenaiTextEmbedding3Large v _ => v

/-- The model tag of an `Embedding` value. -/
def Embedding.modelTag : Embedding → EmbeddingModel
  | .OllamaNomicEmbedText _ _ => .OllamaNomicEmbedText
  | .OllamaMxbaiEmbedLarge _ _ => .OllamaMxbaiEmbedLarge
  | .OpenaiTextEmbedding3Small _ _ => .OpenaiTextEmbedding3Small
  | .OpenaiTextEmbedding3Large _ _ => .OpenaiTextEmbedding3Large

/-- Model of `normalize_vector`: sum of squares accumulated by the
source's loop (a left fold), square root, then elementwise division.
There is no zero-norm guard, exactly as in the source. -/
def normalize_vector (embedding : List Float) : List Float :=
  let norm := Float.sqrt (embedding.foldl (fun acc x => acc + x * x) (0 : Float))
  embedding.map (fun x => x / norm)

/-- Model of `normalize_embedding`: normalize, then match on the model
tag with a length guard. When a guard matches, the `try_into`
conversion to the fixed-size array always succeeds because the length
is exactly right (its error arm is dead code and is not modelled);
every tag whose guard fails falls through to the single wildcard arm.
The `anyhow` error is modelled by its message string. -/
def normalize_embedding (embedding : List Float)
    (embedding_type : EmbeddingModel) : Except String Embedding :=
  let e := normalize_vector embedding
  match embedding_type with
  | .OllamaNomicEmbedText =>
      if h : e.length = EMBEDDING_SIZE_TINY then
        .ok (.OllamaNomicEmbedText e h)
      else .error "Invalid or mismatched embedding size"
  | .OllamaMxbaiEmbedLarge =>
      if h : e.length = EMBEDDING_SIZE_XSMALL then
        .ok (.OllamaMxbaiEmbedLarge e h)
      else .error "Invalid or mismatched embedding size"
  | .OpenaiTextEmbedding3Small =>
      if h : e.length = EMBEDDING_SIZE_SMALL then
        .ok (.OpenaiTextEmbedding3Small e h)
      else .error "Invalid or mismatched embedding size"
  | .OpenaiTextEmbedding3Large =>
      if h : e.length = EMBEDDING_SIZE_LARGE then
        .ok (.OpenaiTextEmbedding3Large e h)
      else .error "Invalid or mismatched embedding size"

theorem length_normalize_vector (v : List Float) :
    (normalize_vector v).length = v.length := by
  simp [normalize_vector]

/-- The JSON body `OllamaEmbeddingProvider` serializes. -/
structure OllamaEmbeddingRequest where
  model : String
  prompt : String
  deriving DecidableEq

/-- The JSON body Ollama answers with. -/
structure OllamaEmbeddingResponse where
  embedding : List Float

/-- Model of `OllamaEmbeddingProvider::get_embedding`. `net` models the
POST to the fixed local endpoint followed by response decoding;
transport failures ("failed to embed") and decode failures ("Unable to
pull response") are its error case. The first component of the result
records the request handed to the network layer, `none` when the
function returns before any network call is made. -/
def ollamaGetEmbedding (model : EmbeddingModel)
    (net : OllamaEmbeddingRequest → Except String OllamaEmbeddingResponse)
    (text : String) :
    Option OllamaEmbeddingRequest × Except String Embedding :=
  match (match model with
    | .OllamaNomicEmbedText => Except.ok "nomic-embed-text"
    | .OllamaMxbaiEmbedLarge => Except.ok "mxbai-embed-large"
    | _ => Except.error "Invalid model") with
  | .error e => (none, .error e)
  | .ok name =>
      let request : OllamaEmbeddingRequest := ⟨name, text⟩
      (some request,
        match net request with
        | .error e => .error e
        | .ok response => normalize_embedding response.embedding model)

/-- The JSON body `OpenaiEmbeddingProvider` serializes. -/
structure OpenaiEmbeddingRequest where
  model : String
  prompt : String
  deriving DecidableEq

/-- One element of the `data` array of an OpenAI response. -/
structure OpenaiEmbeddingData where
  embedding : List Float

/-- The decoded OpenAI response body. -/
structure OpenaiEmbeddingResponse where
  object : String
  data : List OpenaiEmbeddingData
  model : String

/-- Model of `OpenaiEmbeddingProvider::get_embedding`. `net` models the
authenticated POST to the fixed remote endpoint followed by response
decoding. After decoding, `response.data.first()` selects the first
element of the `data` array, or the function fails with the
no-embedding-data error when the array is empty. The first component
records the request handed to the network layer, `none` when the
function returns before any network call is made. -/
def openaiGetEmbedding (model : EmbeddingModel)
    (net : OpenaiEmbeddingRequest → Except String OpenaiEmbeddingResponse)
    (text : String) :
    Option OpenaiEmbeddingRequest × Except String Embedding :=
  match (match model with
    | .OpenaiTextEmbedding3Small => Except.ok "text-embedding-3-small"
    | .OpenaiTextEmbedding3Large => Except.ok "text-embedding-3-large"
    | _ => Except.error "Invalid model") with
  | .error e => (none, .error e)
  | .ok name =>
      let request : OpenaiEmbeddingRequest := ⟨name, text⟩
      (some request,
        match net request with
        | .error e => .error e
        | .ok response =>
            match response.data with
            | [] => .error "No embedding data found in response"
            | first :: _ => normalize_embedding first.embedding model)

/-- Claim C1, counterexample to the claim as stated: on the valid UTF-8
text of the single three-byte character U+4E00 (`[228, 184, 128]`) and
the hit range `[1, 2)`, the forward start-walk and the backward
end-walk both pass the opposite bound (start reaches 3, end reaches 0),
and the slice `text[start..end]` panics rather than yielding a string;
the walks are not bounded by the opposite bound. -/
theorem C1_counterexample :
    ValidUtf8 [228, 184, 128] ∧
      adjustAndSlice [228, 184, 128] 1 2 = .panicked := by
  constructor
  · exact ValidUtf8.cons 228 [184, 128] [] (by decide) (by decide) (by decide)
      ValidUtf8.nil
  · decide

/-- Claim C1 (amended): after clamping `end` to the text's byte length,
`start` is walked forward and `end` backward until each lands on a
valid character boundary; the walks are not bounded by the opposite
bound, but whenever the per-hit computation reaches the slice without
panicking (the walked start is at most the walked end, which in
particular requires `start` to be at most the text's length), both
adjusted offsets are character boundaries, the adjusted end never
exceeds the clamp, and the slice `text[start..end]` is a well-formed
UTF-8 string. -/
theorem C1_adjusted_slice_valid_utf8 (text bs : List Nat) (s0 e0 : Nat)
    (hv : ValidUtf8 text) (h : adjustAndSlice text s0 e0 = .ok bs) :
    ValidUtf8 bs ∧
    ∃ s, firstBoundaryFrom text s0 = some s ∧
      isCharBoundary text s = true ∧
      isCharBoundary text (lastBoundaryDown text (min e0 text.length)) = true ∧
      lastBoundaryDown text (min e0 text.length) ≤ min e0 text.length ∧
      s ≤ lastBoundaryDown text (min e0 text.length) ∧
      bs = (text.drop s).take (lastBoundaryDown text (min e0 text.length) - s) := by
  simp only [adjustAndSlice] at h
  split at h
  · exact absurd h (by simp)
  · rename_i s hfb
    split at h
    · rename_i hle
      cases h
      refine ⟨?_, s, hfb, firstBoundaryFrom_boundary hfb,
        lastBoundaryDown_boundary text _, lastBoundaryDown_le text _, hle, rfl⟩
      exact hv.slice s _ (firstBoundaryFrom_boundary hfb)
        (lastBoundaryDown_boundary text _) hle
    · exact absurd h (by simp)

/-- Claim C1, witness: on the text `"aé"` (`[97, 195, 169]`) with hit
range `[0, 2)`, whose end falls inside the two-byte `é`, the end is
adjusted backward to 1 and the resulting slice `[97]` is well-formed. -/
theorem C1_witness : ValidUtf8 [97] :=
  (C1_adjusted_slice_valid_utf8 [97, 195, 169] [97] 0 2
    (ValidUtf8.cons 97 [] [195, 169] (by decide) (by decide) (by decide)
      (ValidUtf8.cons 195 [169] [] (by decide) (by decide) (by decide)
        ValidUtf8.nil))
    (by decide)).1

/-- Claim C2, counterexample to the claim as stated: the hit range
`[5, 10)` on the three-byte text `"abc"` has its end exceed the text
length, yet no excerpt is produced: the start-walk loop
`while !text.is_char_boundary(start)` never terminates because `start`
is never clamped and no boundary at or after 5 exists. -/
theorem C2_counterexample :
    ([97, 98, 99] : List Nat).length < 10 ∧
      adjustAndSlice [97, 98, 99] 5 10 = .stuck := by
  constructor
  · decide
  · decide

/-- Claim C2 (amended): for every hit whose range start is at most the
loaded text's byte length and whose range end exceeds it, the per-hit
computation completes without error: the end is clamped to exactly the
text's length (already a boundary, so the backward walk stops
immediately), the start walk lands on some boundary `s ≤ length`, and
the excerpt text is the suffix `text[s..length]`. -/
theorem C2_end_clamped (text : List Nat) (s0 e0 : Nat)
    (h1 : s0 ≤ text.length) (h2 : text.length < e0) :
    lastBoundaryDown text (min e0 text.length) = text.length ∧
    ∃ s, firstBoundaryFrom text s0 = some s ∧ s ≤ text.length ∧
      adjustAndSlice text s0 e0 = .ok (text.drop s) := by
  have hmin : min e0 text.length = text.length :=
    Nat.min_eq_right (Nat.le_of_lt h2)
  have hlast : lastBoundaryDown text (min e0 text.length) = text.length := by
    rw [hmin]
    exact lastBoundaryDown_eq_of_boundary text _ (isCharBoundary_length text)
  refine ⟨hlast, ?_⟩
  obtain ⟨s, hs⟩ := firstBoundaryFrom_isSome text s0 h1
  have hsle : s ≤ text.length :=
    isCharBoundary_le_length (firstBoundaryFrom_boundary hs)
  refine ⟨s, hs, hsle, ?_⟩
  simp only [adjustAndSlice, hs]
  rw [hlast]
  rw [if_pos hsle]
  have htake : (text.drop s).take (text.length - s) = text.drop s := by
    apply List.take_of_length_le
    rw [List.length_drop]
  rw [htake]

/-- Claim C2, witness: range `[1, 7)` on the three-byte text `"abc"`:
the end is clamped to 3 and the excerpt is `"bc"`. -/
theorem C2_witness :
    lastBoundaryDown [97, 98, 99] (min 7 ([97, 98, 99] : List Nat).length) =
      ([97, 98, 99] : List Nat).length ∧
    ∃ s, firstBoundaryFrom [97, 98, 99] 1 = some s ∧
      s ≤ ([97, 98, 99] : List Nat).length ∧
      adjustAndSlice [97, 98, 99] 1 7 = .ok (([97, 98, 99] : List Nat).drop s) :=
  C2_end_clamped [97, 98, 99] 1 7 (by decide) (by decide)

/-- Claim C3, counterexample to the claim as stated: the mismatch error
does not carry the expected and actual lengths — it is the one constant
message `"Invalid or mismatched embedding size"`, so binding vectors of
two different lengths (1 and 2) to the same model yields literally the
same error value, which therefore cannot carry the actual length. -/
theorem C3_counterexample :
    normalize_embedding [(0 : Float)] .OllamaNomicEmbedText =
      normalize_embedding [(0 : Float), 0] .OllamaNomicEmbedText ∧
    normalize_embedding [(0 : Float)] .OllamaNomicEmbedText =
      .error "Invalid or mismatched embedding size" := by
  constructor
  · rfl
  · rfl

/-- Claim C3 (amended): `normalize_embedding v model` succeeds iff the
length of `v` equals the canonical dimension of the model (768, 1024,
1536 or 3072 per tag); on mismatch it fails with the constant error
`"Invalid or mismatched embedding size"`, which does not carry the
expected and actual lengths. -/
theorem C3_success_iff_dimension (v : List Float) (t : EmbeddingModel) :
    ((∃ em, normalize_embedding v t = .ok em) ↔
      v.length = canonical_dimension t) ∧
    (v.length ≠ canonical_dimension t →
      normalize_embedding v t = .error "Invalid or mismatched embedding size") := by
  have hlv := length_normalize_vector v
  cases t
  case OllamaNomicEmbedText =>
    by_cases hl : v.length = EMBEDDING_SIZE_TINY
    · have hc : (normalize_vector v).length = EMBEDDING_SIZE_TINY := by omega
      have hok : normalize_embedding v .OllamaNomicEmbedText =
          .ok (.OllamaNomicEmbedText (normalize_vector v) hc) := by
        simp only [normalize_embedding]
        rw [dif_pos hc]
      exact ⟨⟨fun _ => hl, fun _ => ⟨_, hok⟩⟩, fun hne => absurd hl hne⟩
    · have hc : ¬(normalize_vector v).length = EMBEDDING_SIZE_TINY := by omega
      have herr : normalize_embedding v .OllamaNomicEmbedText =
          .error "Invalid or mismatched embedding size" := by
        simp only [normalize_embedding]
        rw [dif_neg hc]
      refine ⟨⟨?_, fun h => absurd h hl⟩, fun _ => herr⟩
      rintro ⟨em, hem⟩
      rw [herr] at hem
      cases hem
  case OllamaMxbaiEmbedLarge =>
    by_cases hl : v.length = EMBEDDING_SIZE_XSMALL
    · have hc : (normalize_vector v).length = EMBEDDING_SIZE_XSMALL := by omega
      have hok : normalize_embedding v .OllamaMxbaiEmbedLarge =
          .ok (.OllamaMxbaiEmbedLarge (normalize_vector v) hc) := by
        simp only [normalize_embedding]
        rw [dif_pos hc]
      exact ⟨⟨fun _ => hl, fun _ => ⟨_, hok⟩⟩, fun hne => absurd hl hne⟩
    · have hc : ¬(normalize_vector v).length = EMBEDDING_SIZE_XSMALL := by omega
      have herr : normalize_embedding v .OllamaMxbaiEmbedLarge =
          .error "Invalid or mismatched embedding size" := by
        simp only [normalize_embedding]
        rw [dif_neg hc]
      refine ⟨⟨?_, fun h => absurd h hl⟩, fun _ => herr⟩
      rintro ⟨em, hem⟩
      rw [herr] at hem
      cases hem
  case OpenaiTextEmbedding3Small =>
    by_cases hl : v.length = EMBEDDING_SIZE_SMALL
    · have hc : (normalize_vector v).length = EMBEDDING_SIZE_SMALL := by omega
      have hok : normalize_embedding v .OpenaiTextEmbedding3Small =
          .ok (.OpenaiTextEmbedding3Small (normalize_vector v) hc) := by
        simp only [normalize_embedding]
        rw [dif_pos hc]
      exact ⟨⟨fun _ => hl, fun _ => ⟨_, hok⟩⟩, fun hne => absurd hl hne⟩
    · have hc : ¬(normalize_vector v).length = EMBEDDING_SIZE_SMALL := by omega
      have herr : normalize_embedding v .OpenaiTextEmbedding3Small =
          .error "Invalid or mismatched embedding size" := by
        simp only [normalize_embedding]
        rw [dif_neg hc]
      refine ⟨⟨?_, fun h => absurd h hl⟩, fun _ => herr⟩
      rintro ⟨em, hem⟩
      rw [herr] at hem
      cases hem
  case OpenaiTextEmbedding3Large =>
    by_cases hl : v.length = EMBEDDING_SIZE_LARGE
    · have hc : (normalize_vector v).length = EMBEDDING_SIZE_LARGE := by omega
      have hok : normalize_embedding v .OpenaiTextEmbedding3Large =
          .ok (.OpenaiTextEmbedding3Large (normalize_vector v) hc) := by
        simp only [normalize_embedding]
        rw [dif_pos hc]
      exact ⟨⟨fun _ => hl, fun _ => ⟨_, hok⟩⟩, fun hne => absurd hl hne⟩
    · have hc : ¬(normalize_vector v).length = EMBEDDING_SIZE_LARGE := by omega
      have herr : normalize_embedding v .OpenaiTextEmbedding3Large =
          .error "Invalid or mismatched embedding size" := by
        simp only [normalize_embedding]
        rw [dif_neg hc]
      refine ⟨⟨?_, fun h => absurd h hl⟩, fun _ => herr⟩
      rintro ⟨em, hem⟩
      rw [herr] at hem
      cases hem

/-- Claim C3, witness: a 1536-length vector bound to
`OpenaiTextEmbedding3Small` succeeds, and bound to
`OpenaiTextEmbedding3Large` fails with the mismatch error. -/
theorem C3_witness :
    (∃ em, normalize_embedding (List.replicate 1536 (0 : Float))
      .OpenaiTextEmbedding3Small = .ok em) ∧
    normalize_embedding (List.replicate 1536 (0 : Float))
      .OpenaiTextEmbedding3Large =
      .error "Invalid or mismatched embedding size" :=
  ⟨(C3_success_iff_dimension (List.replicate 1536 (0 : Float))
      .OpenaiTextEmbedding3Small).1.mpr
      (by rw [List.length_replicate]; rfl),
   (C3_success_iff_dimension (List.replicate 1536 (0 : Float))
      .OpenaiTextEmbedding3Large).2
      (by rw [List.length_replicate]; decide)⟩

/-- Claim C4, counterexample to the claim as stated: three hits of which
exactly the second references a file whose load fails, yet the batch
returns no excerpt list at all — the first hit's load succeeds but its
range start (5) lies past the loaded text's length (3), so its
start-walk loop never terminates and `join_all` never completes. -/
theorem C4_counterexample :
    materializeHit (fun p => if p = "/b" then Except.error () else Except.ok [97, 98, 99])
      ⟨"", "b", 0, 3, 1.0⟩ = .err ∧
    materialize (fun p => if p = "/b" then Except.error () else Except.ok [97, 98, 99])
      [⟨"", "a", 5, 10, 1.0⟩, ⟨"", "b", 0, 3, 1.0⟩, ⟨"", "c", 0, 3, 1.0⟩] =
      none := by
  constructor
  · rfl
  · rfl

/-- Claim C4 (amended): given 3 hits of which exactly one — in any of
the three positions — fails its file load, and whose other two hits'
per-hit computations each succeed with an excerpt, the batch returns
exactly those 2 excerpts in their original order, with the text and
score each derived solely from its own hit, unchanged; the per-hit
failure neither aborts the batch nor alters the other hits' results. -/
theorem C4_per_hit_isolation (fs : String → Except Unit (List Nat))
    (r1 r2 r3 : SearchResult) (e e' : CodebaseExcerpt)
    (h : (materializeHit fs r1 = .err ∧ materializeHit fs r2 = .ok e ∧
            materializeHit fs r3 = .ok e') ∨
         (materializeHit fs r1 = .ok e ∧ materializeHit fs r2 = .err ∧
            materializeHit fs r3 = .ok e') ∨
         (materializeHit fs r1 = .ok e ∧ materializeHit fs r2 = .ok e' ∧
            materializeHit fs r3 = .err)) :
    materialize fs [r1, r2, r3] = some [e, e'] := by
  rcases h with ⟨h1, h2, h3⟩ | ⟨h1, h2, h3⟩ | ⟨h1, h2, h3⟩ <;>
    simp [materialize, h1, h2, h3, hitFatal, hitOk]

/-- Claim C4, witness: the failing load at two different positions. With
hit `b`'s load failing in the middle, hits `a` and `c` come back
unchanged; with hit `a`'s load failing in front, hits `b2` and `c`
come back unchanged. -/
theorem C4_witness :
    materialize (fun p => if p = "/b" then Except.error () else Except.ok [97, 98, 99])
      [⟨"", "a", 0, 3, 0.5⟩, ⟨"", "b", 0, 3, 0.25⟩, ⟨"", "c", 1, 2, 0.125⟩] =
      some [⟨"a", [97, 98, 99], 0.5⟩, ⟨"c", [98], 0.125⟩] ∧
    materialize (fun p => if p = "/a" then Except.error () else Except.ok [97, 98, 99])
      [⟨"", "a", 0, 3, 0.5⟩, ⟨"", "b2", 0, 1, 0.25⟩, ⟨"", "c", 1, 2, 0.125⟩] =
      some [⟨"b2", [97], 0.25⟩, ⟨"c", [98], 0.125⟩] :=
  ⟨C4_per_hit_isolation _ _ _ _ _ _ (Or.inr (Or.inl ⟨by rfl, by rfl, by rfl⟩)),
   C4_per_hit_isolation _ _ _ _ _ _ (Or.inl ⟨by rfl, by rfl, by rfl⟩)⟩

/-- Claim C5: the Ollama provider configured with either OpenAI tag
fails with the invalid-model error (the spec's `UnsupportedModel`)
without any network call being made (the recorded request is `none` and
the result does not depend on `net`); configured with the two supported
tags it sends the model names `"nomic-embed-text"` and
`"mxbai-embed-large"` respectively. -/
theorem C5_ollama_model_gating
    (net : OllamaEmbeddingRequest → Except String OllamaEmbeddingResponse)
    (text : String) :
    ollamaGetEmbedding .OpenaiTextEmbedding3Small net text =
      (none, .error "Invalid model") ∧
    ollamaGetEmbedding .OpenaiTextEmbedding3Large net text =
      (none, .error "Invalid model") ∧
    (ollamaGetEmbedding .OllamaNomicEmbedText net text).1 =
      some ⟨"nomic-embed-text", text⟩ ∧
    (ollamaGetEmbedding .OllamaMxbaiEmbedLarge net text).1 =
      some ⟨"mxbai-embed-large", text⟩ := by
  exact ⟨rfl, rfl, rfl, rfl⟩

/-- Claim C6: for every decoded OpenAI response, if the `data` array is
empty `get_embedding` fails with the empty-response error; otherwise it
passes exactly the first element's `embedding` vector to normalization
and binding, ignoring any further elements. -/
theorem C6_openai_first_element (text : String)
    (resp : OpenaiEmbeddingResponse) (m : EmbeddingModel)
    (hm : m = .OpenaiTextEmbedding3Small ∨ m = .OpenaiTextEmbedding3Large) :
    (resp.data = [] →
      (openaiGetEmbedding m (fun _ => .ok resp) text).2 =
        .error "No embedding data found in response") ∧
    (∀ d rest, resp.data = d :: rest →
      (openaiGetEmbedding m (fun _ => .ok resp) text).2 =
        normalize_embedding d.embedding m) := by
  rcases hm with rfl | rfl
  all_goals
    refine ⟨?_, ?_⟩
    · intro hd
      simp [openaiGetEmbedding, hd]
    · intro d rest hd
      simp [openaiGetEmbedding, hd]

/-- Claim C6, witness: with a response whose `data` array holds two
elements, the result is the normalization of the first element's
vector, the second element being ignored. -/
theorem C6_witness :
    (openaiGetEmbedding .OpenaiTextEmbedding3Small
      (fun _ => .ok ⟨"list", [⟨[(1 : Float)]⟩, ⟨[(2 : Float)]⟩], "m"⟩)
      "hello").2 =
      normalize_embedding [(1 : Float)] .OpenaiTextEmbedding3Small :=
  (C6_openai_first_element "hello"
    ⟨"list", [⟨[(1 : Float)]⟩, ⟨[(2 : Float)]⟩], "m"⟩
    .OpenaiTextEmbedding3Small (Or.inl rfl)).2
    ⟨[(1 : Float)]⟩ [⟨[(2 : Float)]⟩] rfl

/-- Claim C7: every constructible `Embedding` value's float vector has
length equal to the canonical dimension of its model tag; the payloads
are fixed-size arrays, so no operation can change the length. -/
theorem C7_embedding_length_invariant (e : Embedding) :
    e.vec.length = canonical_dimension e.modelTag := by
  cases e <;> simp_all [Embedding.vec, Embedding.modelTag, canonical_dimension]

/-- Claim C8: under every completion order of the concurrent per-hit
tasks (any permutation of the task indices), the tool's result is the
same as the canonical input-order result, and whenever an excerpt list
is returned it is exactly the per-hit results of the successful hits in
the original hit order. -/
theorem C8_order_deterministic (fs : String → Except Unit (List Nat))
    (results : List SearchResult) (sched : List Nat)
    (hperm : sched.Perm (List.range results.length)) :
    materializeSched fs results sched = materialize fs results ∧
    ∀ out, materialize fs results = some out →
      out = (results.map (materializeHit fs)).filterMap hitOk := by
  constructor
  · apply materializeSched_eq
    intro i hi
    exact hperm.mem_iff.mpr (List.mem_range.mpr hi)
  · intro out hout
    simp only [materialize] at hout
    split at hout
    · cases hout
    · cases hout
      rfl

/-- Claim C8, witness: two hits completing in reversed order `[1, 0]`
yield the same result as the canonical order. -/
theorem C8_witness :
    materializeSched (fun _ => Except.ok [104, 105])
      [⟨"", "a", 0, 2, 1.0⟩, ⟨"", "b", 0, 1, 2.0⟩] [1, 0] =
      materialize (fun _ => Except.ok [104, 105])
        [⟨"", "a", 0, 2, 1.0⟩, ⟨"", "b", 0, 1, 2.0⟩] ∧
    ∀ out, materialize (fun _ => Except.ok [104, 105])
        [⟨"", "a", 0, 2, 1.0⟩, ⟨"", "b", 0, 1, 2.0⟩] = some out →
      out = (([⟨"", "a", 0, 2, 1.0⟩, ⟨"", "b", 0, 1, 2.0⟩] :
          List SearchResult).map
          (materializeHit (fun _ => Except.ok [104, 105]))).filterMap hitOk :=
  C8_order_deterministic (fun _ => Except.ok [104, 105])
    [⟨"", "a", 0, 2, 1.0⟩, ⟨"", "b", 0, 1, 2.0⟩] [1, 0] (by decide)

/-- Claim C9: `format_output` produces exactly the stable framing — the
header line, then for each excerpt in order the
`Excerpt from <path>, score <score>:` line followed by a body fenced
between `~~~` markers. -/
theorem C9_format_output_framing (excerpts : List CodebaseExcerpt) :
    format_output excerpts =
      strBytes "Semantic search results for user query:\n" ++
        (excerpts.map excerptFrame).flatten :=
  format_output_go excerpts _

/-- Claim C10: the per-hit computation consults the file loader only at
the worktree's absolute path joined with the hit's relative path, and
the emitted excerpt's `path` field is the display of the relative path
alone — never the absolute path (which is strictly longer). -/
theorem C10_relative_path_only (fs fs' : String → Except Unit (List Nat))
    (r : SearchResult) (ex : CodebaseExcerpt) :
    (fs (joinPath r.worktreeAbsPath r.path) =
        fs' (joinPath r.worktreeAbsPath r.path) →
      materializeHit fs r = materializeHit fs' r) ∧
    (materializeHit fs r = .ok ex →
      ex.path = r.path ∧ ex.path ≠ joinPath r.worktreeAbsPath r.path) := by
  constructor
  · intro hfs
    unfold materializeHit
    rw [hfs]
  · intro hok
    unfold materializeHit at hok
    cases hload : fs (joinPath r.worktreeAbsPath r.path) with
    | error e =>
      rw [hload] at hok
      cases hok
    | ok text =>
      rw [hload] at hok
      dsimp only at hok
      cases hadj : adjustAndSlice text r.rangeStart r.rangeEnd with
      | ok bytes =>
        rw [hadj] at hok
        cases hok
        refine ⟨rfl, ?_⟩
        show r.path ≠ joinPath r.worktreeAbsPath r.path
        intro hcontra
        have hlen := congrArg String.length hcontra
        rw [joinPath] at hlen
        rw [String.length_append, String.length_append] at hlen
        have hone : ("/" : String).length = 1 := rfl
        rw [hone] at hlen
        omega
      | err =>
        rw [hadj] at hok
        cases hok
      | stuck =>
        rw [hadj] at hok
        cases hok
      | panicked =>
        rw [hadj] at hok
        cases hok

/-- Claim C10, witness: a concrete hit whose excerpt carries the
relative path `"a"`, not the absolute `"/wt/a"`. -/
theorem C10_witness :
    ("a" : String) = "a" ∧ ("a" : String) ≠ joinPath "/wt" "a" :=
  (C10_relative_path_only (fun _ => Except.ok [97, 98, 99])
    (fun _ => Except.ok [97, 98, 99])
    ⟨"/wt", "a", 0, 3, 1.0⟩ ⟨"a", [97, 98, 99], 1.0⟩).2 (by rfl)

end Zed
